import Mathlib

/-!
Shallow embedding of the HTTP/1.1 server in `src/app/server.go`.

The file `src/app/server.go` concatenates two revisions of the server; the
second revision (types `Req`/`Res`, `Res.String`, `ErrRes`, from line 180 on)
is the current one and is embedded below under the same names where Lean
permits (`Res.String` becomes `ResString`, `handleConnection` becomes
`handleConn`).  The earlier revision's `handleSendFile` (which writes to the
connection directly via `NewResponse`) is embedded as `handleSendFileV1`.

Go byte strings are modelled as `List Char` restricted to the ASCII range
(one `Char` per byte), so Go's byte-length and Lean's list length agree on
every string this server manipulates.  All splitting primitives from Go's
`strings` package are re-implemented with structural recursion so that every
definition evaluates inside the kernel.  Filesystem access (`os.Stat`,
`os.ReadFile`, `os.WriteFile`) is an external collaborator and is modelled as
an oracle record `Fs` passed explicitly.  A Go runtime fault (index out of
range, nil-map/nil-pointer dereference) is modelled by the `fault`
constructor of `GoResult`, since a panicking goroutine terminates the whole
Go process.
-/

/-- A Go byte string / byte slice, one ASCII `Char` per byte. -/
abbrev Bytes := List Char

/-- Outcome of a Go computation: a value, an `error` return, or a runtime
panic (`fault`). -/
inductive GoResult (α : Type) : Type where
  | ok (a : α) : GoResult α
  | err (msg : Bytes) : GoResult α
  | fault (msg : Bytes) : GoResult α
deriving DecidableEq, Repr

/-- Cons a character onto the first group of a split result
(helper for the splitting primitives). -/
def consHead (c : Char) : List Bytes → List Bytes
  | [] => [[c]]
  | g :: gs => (c :: g) :: gs

/-- Go `strings.Split(s, sep)` for a one-byte separator `sep`. -/
def goSplitChar (sep : Char) : Bytes → List Bytes
  | [] => [[]]
  | c :: rest =>
    if c = sep then [] :: goSplitChar sep rest
    else consHead c (goSplitChar sep rest)

/-- Go `strings.SplitN(s, sep, 2)` (equivalently `strings.Cut`): split at the
first occurrence of `sep`, returning `none` when `sep` does not occur. -/
def cutList (sep : Bytes) : Bytes → Option (Bytes × Bytes)
  | [] => none
  | c :: rest =>
    if sep.isPrefixOf (c :: rest) then some ([], (c :: rest).drop sep.length)
    else (cutList sep rest).map fun p => (c :: p.1, p.2)

/-- Go `strings.Split(s, "\r\n")`: split at every CRLF. -/
def splitCRLF : Bytes → List Bytes
  | '\r' :: '\n' :: rest => [] :: splitCRLF rest
  | c :: rest => consHead c (splitCRLF rest)
  | [] => [[]]

/-- Go `strings.CutSuffix(s, suffix)`. -/
def goCutSuffix (suffix s : Bytes) : Option Bytes :=
  if suffix.isSuffixOf s then some (s.take (s.length - suffix.length)) else none

/-- Go `strings.CutPrefix(s, prefix)`. -/
def goCutPrefix (pre s : Bytes) : Option Bytes :=
  if pre.isPrefixOf s then some (s.drop pre.length) else none

/-- Go `strings.Trim(s, " ")`. -/
def trimSpace (l : Bytes) : Bytes :=
  ((l.dropWhile (· = ' ')).reverse.dropWhile (· = ' ')).reverse

/-- Go `strings.ToLower` (ASCII range). -/
def toLowerB (l : Bytes) : Bytes := l.map Char.toLower

/-- Go `strings.Contains(s, sub)`. -/
def containsList (sub : Bytes) : Bytes → Bool
  | [] => sub.isEmpty
  | c :: rest => sub.isPrefixOf (c :: rest) || containsList sub rest

/-- Decimal rendering of a natural number, as used by
`fmt.Sprintf` with verb `d`. -/
def natToBytes (n : Nat) : Bytes := (Nat.repr n).data

/-- The literal protocol token `HTTP/1.1`. -/
def http11 : Bytes := "HTTP/1.1".data

/-- The CRLF pair. -/
def crlf : Bytes := "\r\n".data

/-- The blank-line separator CRLF CRLF. -/
def crlf2 : Bytes := "\r\n\r\n".data

/-- The parse error text produced by `parseFirstLine`. -/
def onlyHTTP11Msg : Bytes := "Only HTTP/1.1 is supported".data

/-- The message attached to a Go index-out-of-range panic. -/
def oorMsg : Bytes := "index out of range".data

/-- `parseFirstLine` from `src/app/server.go`: cut the suffix `HTTP/1.1`
(error when absent), split the remainder on spaces, and index elements 0
and 1 of the result (a runtime fault when fewer than two exist). -/
def parseFirstLine (line : Bytes) : GoResult (Bytes × Bytes) :=
  match goCutSuffix http11 line with
  | none => .err onlyHTTP11Msg
  | some a =>
    match goSplitChar ' ' a with
    | b0 :: b1 :: _ => .ok (b0, b1)
    | _ => .fault oorMsg

/-- One header line through Go's `strings.Cut(str, ":")` followed by the
trim-and-lowercase normalisation of `parseHeaders`; `none` for lines
without a colon (which `parseHeaders` skips). -/
def lineKV (l : Bytes) : Option (Bytes × Bytes) :=
  (cutList [':'] l).map fun p => (toLowerB (trimSpace p.1), toLowerB (trimSpace p.2))

/-- `parseHeaders` from `src/app/server.go`.  The Go map is modelled as the
association list of parsed lines in order; a lookup takes the last binding,
matching Go's overwrite-on-insert semantics observationally. -/
def parseHeaders (raw : Bytes) : List (Bytes × Bytes) :=
  (splitCRLF raw).filterMap lineKV

/-- Lookup in the association-list model of a Go `map[string]string`:
the last binding for the key wins, `none` when absent. -/
def lookupLast (m : List (Bytes × Bytes)) (k : Bytes) : Option Bytes :=
  m.reverse.findSome? fun p => if p.1 = k then some p.2 else none

/-- Go map indexing `m[k]`, which yields the zero value `""` for a
missing key. -/
def mapGet (m : List (Bytes × Bytes)) (k : Bytes) : Bytes :=
  (lookupLast m k).getD []

/-- The `Req` struct of `src/app/server.go` (second revision). -/
structure Req where
  method : Bytes
  path : Bytes
  headers : List (Bytes × Bytes)
  body : Bytes
deriving DecidableEq, Repr

/-- `parseRequest` from `src/app/server.go`.  `split := SplitN(req,
"\r\n\r\n", 2)` and `split2 := SplitN(split[0], "\r\n", 2)` are the two
cuts; when a separator is absent Go's slice has length 1 and the later
index expressions `split2[1]` / `split[1]` fault at runtime. -/
def parseRequest (req : Bytes) : GoResult Req :=
  let cb := cutList crlf2 req
  let head := match cb with | some p => p.1 | none => req
  let cc := cutList crlf head
  let firstLine := match cc with | some p => p.1 | none => head
  match parseFirstLine firstLine with
  | .err e => .err e
  | .fault m => .fault m
  | .ok mp =>
    match cc with
    | none => .fault oorMsg
    | some cp =>
      let headers := parseHeaders cp.2
      match cb with
      | none => .fault oorMsg
      | some bp => .ok ⟨mp.1, mp.2, headers, bp.2⟩

example : parseFirstLine "GET / HTTP/1.1".data = .ok ("GET".data, "/".data) := by decide

example : parseRequest "GET /a HTTP/1.1\r\nHost: X \r\n\r\nbody".data
    = .ok ⟨"GET".data, "/a".data, [("host".data, "x".data)], "body".data⟩ := by decide

/-- The `Res` struct of `src/app/server.go`; field defaults are the Go zero
values used by composite literals such as `&Res\x7bStatus: 404\x7d`. -/
structure Res where
  status : Nat := 0
  ctype : Bytes := []
  headers : List (Bytes × Bytes) := []
  body : Bytes := []
deriving DecidableEq, Repr

/-- `Res.StatusText` from `src/app/server.go`. -/
def statusText : Nat → Bytes
  | 200 => "OK".data
  | 201 => "Created".data
  | 400 => "Bad Request".data
  | 404 => "Not Found".data
  | 405 => "Method Not Allowed".data
  | 422 => "Unprocessable Entity".data
  | 500 => "Internal Server Error".data
  | _ => []

/-- The three reserved header names removed by `Res.String` before emitting
auxiliary headers. -/
def reservedKeys : List Bytes :=
  ["content-encoding".data, "content-length".data, "content-type".data]

/-- `Res.String(enc bool)` from `src/app/server.go`: auxiliary headers (with
the reserved keys deleted, names lowercased), then `content-length` computed
from `len(r.Body)`, then `content-type` when non-empty, then
`content-encoding: gzip` when `enc` is set.  Note that the body is emitted
as-is: the function never invokes any compression. -/
def ResString (r : Res) (enc : Bool) : Bytes :=
  let aux := r.headers.filter fun p => ¬ p.1 ∈ reservedKeys
  let headersStr :=
    (aux.map fun p => toLowerB p.1 ++ ": ".data ++ p.2 ++ crlf).flatten
      ++ "content-length: ".data ++ natToBytes r.body.length ++ crlf
      ++ (if r.ctype ≠ [] then "content-type: ".data ++ r.ctype ++ crlf else [])
      ++ (if enc then "content-encoding: gzip".data ++ crlf else [])
  "HTTP/1.1 ".data ++ natToBytes r.status ++ " ".data ++ statusText r.status
    ++ crlf ++ headersStr ++ crlf ++ r.body

/-- `ErrRes(err, status)` from `src/app/server.go` (second revision). -/
def ErrRes (msg : Bytes) (status : Nat) : Res :=
  { status := status, ctype := "text/plain".data, body := msg }

/-- A Go `error` value as the file-system oracle produces it:
whether `errors.Is(err, fs.ErrNotExist)` holds, and `err.Error()`. -/
structure GoErr where
  notExist : Bool
  msg : Bytes
deriving DecidableEq, Repr

/-- The part of `os.FileInfo` the server consults. -/
structure FileInfo where
  isDir : Bool
deriving DecidableEq, Repr

/-- Oracle for the filesystem collaborator: results of `os.Stat`,
`os.ReadFile` and `os.WriteFile` per path. -/
structure Fs where
  stat : Bytes → Except GoErr FileInfo
  read : Bytes → Except GoErr Bytes
  write : Bytes → Bytes → Option GoErr

/-- `handleSendFile` from the second (current) revision of
`src/app/server.go`: stat, 404 on not-exist or directory, read, 500 on
errors, otherwise 200 with the file contents as an octet-stream. -/
def handleSendFile (fs : Fs) (p : Bytes) : Res :=
  match fs.stat p with
  | .error e => if e.notExist then { status := 404 } else ErrRes e.msg 500
  | .ok info =>
    if info.isDir then { status := 404 }
    else
      match fs.read p with
      | .error e => ErrRes e.msg 500
      | .ok data => { status := 200, ctype := "application/octet-stream".data, body := data }

/-- `handleCreateFile` from the second revision of `src/app/server.go`. -/
def handleCreateFile (fs : Fs) (p content : Bytes) : Res :=
  match fs.write p content with
  | some e => ErrRes e.msg 500
  | none => { status := 201 }

/-- The `PLAIN` header map of the first revision of `src/app/server.go`. -/
def PLAIN : List (Bytes × Bytes) := [("content-type".data, "text/plain".data)]

/-- `NewResponse(status, headers, body)` from the first revision of
`src/app/server.go`: the status argument carries code and reason together. -/
def NewResponse (status : Bytes) (headers : List (Bytes × Bytes)) (body : Bytes) : Bytes :=
  let headersStr :=
    (headers.map fun p => toLowerB p.1 ++ ": ".data ++ p.2 ++ crlf).flatten
      ++ "content-length: ".data ++ natToBytes body.length ++ crlf
  "HTTP/1.1 ".data ++ status ++ crlf ++ headersStr ++ crlf ++ body

/-- `handleSendFile` from the first revision of `src/app/server.go` (lines
96-101 of the file), which writes responses to the connection directly; the
returned list is the sequence of `conn.Write` payloads.  In the read-error
branch the function writes a 500 response but lacks a `return`, so it falls
through and also writes the 200 response (with the `nil` data slice, an
empty body). -/
def handleSendFileV1 (fs : Fs) (p : Bytes) : List Bytes :=
  match fs.stat p with
  | .error e =>
    if e.notExist then [NewResponse "404 Not Found".data [] []]
    else [NewResponse "500 Internal Server Error".data PLAIN e.msg]
  | .ok info =>
    if info.isDir then [NewResponse "404 Not Found".data [] []]
    else
      match fs.read p with
      | .error e =>
        [NewResponse "500 Internal Server Error".data PLAIN e.msg,
         NewResponse "200 OK".data
           [("content-type".data, "application/octet-stream".data)] []]
      | .ok data =>
        [NewResponse "200 OK".data
          [("content-type".data, "application/octet-stream".data)] data]

/-- The zero-byte truncation loop at the top of `handleConnection`:
`b = b[:i]` at the first `i` with `b[i] == 0`. -/
def truncAtNul (l : Bytes) : Bytes := l.takeWhile fun c => c ≠ '\u0000'

/-- One component stack step of Go `path.Clean` for rooted paths: empty and
`.` components are dropped, `..` pops the stack (or is dropped at the
root), anything else is pushed. -/
def cleanComps (acc : List Bytes) : List Bytes → List Bytes
  | [] => acc.reverse
  | c :: rest =>
    if c = [] ∨ c = ".".data then cleanComps acc rest
    else if c = "..".data then
      match acc with
      | [] => cleanComps [] rest
      | _ :: as => cleanComps as rest
    else cleanComps (c :: acc) rest

/-- Join path components with `/` (Go `strings.Join(elems, "/")`). -/
def joinSlash : List Bytes → Bytes
  | [] => []
  | [g] => g
  | g :: g2 :: gs => g ++ '/' :: joinSlash (g2 :: gs)

/-- Go `path.Clean` restricted to rooted paths (every path the server joins
starts with the absolute `directory`, checked by `directory[0] == '/'`). -/
def goCleanRooted (p : Bytes) : Bytes :=
  '/' :: joinSlash (cleanComps [] (goSplitChar '/' p))

/-- Go `path.Join(a, b)` for a rooted first element:
`Clean(a + "/" + b)`. -/
def goPathJoin (a b : Bytes) : Bytes := goCleanRooted (a ++ '/' :: b)

example : goPathJoin "/data".data "www/x".data = "/data/www/x".data := by decide
example : goPathJoin "/data".data "../secret".data = "/secret".data := by decide
example : goPathJoin "/data".data "".data = "/data".data := by decide

/-- Result of one run of `handleConnection` on an accepted connection whose
read succeeded: the payloads written to the connection, and whether the
goroutine panicked (which kills the whole server process). -/
structure ConnResult where
  writes : List Bytes
  faulted : Bool
deriving DecidableEq, Repr

/-- `handleConnection` from the second revision of `src/app/server.go`,
after a successful `conn.Read` into `buf`.  `dir` is the process-wide
`directory` flag value.  On a parse error the handler writes the 422
response and then — the `return` present in the first revision is missing —
evaluates `req.Headers` on the `nil` request, a fault.  On a `/files/`
request it evaluates `directory[0]`, a fault when the flag is unset. -/
def handleConn (dir : Bytes) (fs : Fs) (buf : Bytes) : ConnResult :=
  let b := truncAtNul buf
  match parseRequest b with
  | .fault _ => ⟨[], true⟩
  | .err e => ⟨[ResString (ErrRes e 422) false], true⟩
  | .ok req =>
    let enc := containsList "gzip".data (mapGet req.headers "accept-encoding".data)
    if req.path = "/".data then ⟨[ResString { status := 200 } enc], false⟩
    else if req.path = "/user-agent".data then
      ⟨[ResString { status := 200, ctype := "text/plain".data,
                    body := mapGet req.headers "user-agent".data } enc], false⟩
    else
      match goCutPrefix "/echo/".data req.path with
      | some echoStr =>
        ⟨[ResString { status := 200, ctype := "text/plain".data, body := echoStr } enc], false⟩
      | none =>
        match goCutPrefix "/files/".data req.path with
        | some filesStr =>
          match dir with
          | [] => ⟨[], true⟩
          | d0 :: _ =>
            if d0 = '/' then
              let p := goPathJoin dir filesStr
              if req.method = "GET".data then
                ⟨[ResString (handleSendFile fs p) enc], false⟩
              else if req.method = "POST".data then
                ⟨[ResString (handleCreateFile fs p req.body) enc], false⟩
              else ⟨[ResString { status := 405 } enc], false⟩
            else ⟨[ResString { status := 404 } enc], false⟩
        | none => ⟨[ResString { status := 404 } enc], false⟩

/-- A filesystem oracle on which every operation fails with not-exist. -/
def fsEmpty : Fs :=
  ⟨fun _ => .error ⟨true, "no such file".data⟩,
   fun _ => .error ⟨true, "no such file".data⟩,
   fun _ _ => some ⟨true, "no such file".data⟩⟩

/-- A filesystem oracle where stat finds a regular file but reading fails. -/
def fsReadFail : Fs :=
  ⟨fun _ => .ok ⟨false⟩,
   fun _ => .error ⟨false, "disk error".data⟩,
   fun _ _ => none⟩

example : ResString { status := 404 } false
    = "HTTP/1.1 404 Not Found\r\ncontent-length: 0\r\n\r\n".data := by decide

example : handleConn "/data".data fsEmpty "GET /echo/hi HTTP/1.1\r\nHost: a\r\n\r\n".data
    = ⟨["HTTP/1.1 200 OK\r\ncontent-length: 2\r\ncontent-type: text/plain\r\n\r\nhi".data],
       false⟩ := by decide

/-- Containment of a path in a configured root: the path is the root itself
or extends it below a path separator. -/
def withinRoot (root p : Bytes) : Bool :=
  p == root || (root ++ ['/']).isPrefixOf p

/-- C1: the claim asserts that rendering with `gzip_requested` true emits
the gzip compression of the body and a `content-length` equal to the
compressed length.  Evaluating `Res.String` at the failing input — body
`"abc"`, `enc` true — shows the wire bytes carry the body `"abc"`
uncompressed, with `content-length: 3`, the pre-compression length, while
still declaring `content-encoding: gzip` (every gzip stream begins with the
magic bytes 0x1f 0x8b, so `"abc"` is not the gzip compression of
anything); the serializer never invokes a compressor. -/
theorem c1_gzip_not_applied :
    ResString { status := 200, ctype := "text/plain".data, body := "abc".data } true
      = ("HTTP/1.1 200 OK\r\ncontent-length: 3\r\ncontent-type: text/plain\r\n"
          ++ "content-encoding: gzip\r\n\r\nabc").data
    ∧ natToBytes "abc".data.length = "3".data := by decide

/-- C2: on the unparseable buffer `"garbage"` the handler writes exactly the
one 422 response carrying the parse error text, but then — the `return`
present in the first revision is missing — dereferences the `nil` request,
so the goroutine faults, which is fatal to the server process. -/
theorem c2_parse_failure_fault :
    handleConn [] fsEmpty "garbage".data
      = ⟨[("HTTP/1.1 422 Unprocessable Entity\r\ncontent-length: 26\r\n"
            ++ "content-type: text/plain\r\n\r\nOnly HTTP/1.1 is supported").data],
         true⟩ := by decide

/-- C6: with the `--directory` flag unset (empty string) a `/files/` request
evaluates `directory[0]` on the empty string and faults (no 404 is written);
only a non-empty, non-absolute flag value falls through to 404 as the claim
describes. -/
theorem c6_empty_directory_fault :
    handleConn [] fsEmpty "GET /files/x HTTP/1.1\r\nHost: a\r\n\r\n".data
      = ⟨[], true⟩
    ∧ handleConn "rel".data fsEmpty "GET /files/x HTTP/1.1\r\nHost: a\r\n\r\n".data
      = ⟨["HTTP/1.1 404 Not Found\r\ncontent-length: 0\r\n\r\n".data], false⟩ := by decide

/-- C10: in the first revision of `handleSendFile` (the `conn.Write`-based
one), when `os.Stat` succeeds on a regular file and `os.ReadFile` then
fails, the missing `return` makes the handler write a 500 response followed
by a 200 response — two responses on one connection; the second revision
returns the single 500 for the same filesystem outcome. -/
theorem c10_v1_double_write :
    handleSendFileV1 fsReadFail "/d/f".data
      = [("HTTP/1.1 500 Internal Server Error\r\ncontent-type: text/plain\r\n"
            ++ "content-length: 10\r\n\r\ndisk error").data,
         ("HTTP/1.1 200 OK\r\ncontent-type: application/octet-stream\r\n"
            ++ "content-length: 0\r\n\r\n").data]
    ∧ handleSendFile fsReadFail "/d/f".data
      = { status := 500, ctype := "text/plain".data, body := "disk error".data } := by decide

/-- C3 counterexample: the start line `"GET /a /b HTTP/1.1"` has four
space-separated tokens, not three, yet `parseFirstLine` parses it
successfully (method `"GET"`, target `"/a"`) instead of returning a syntax
failure. -/
theorem c3_counterexample :
    (goSplitChar ' ' "GET /a /b HTTP/1.1".data).length ≠ 3
    ∧ parseFirstLine "GET /a /b HTTP/1.1".data = .ok ("GET".data, "/a".data) := by decide

/-- C4 counterexample: the buffer `"GET / HTTP/1.1\r\nhost: a"` contains no
CRLF CRLF separator, and `parseRequest` faults on it (the index expression
`split[1]` is out of range) instead of treating the whole buffer as the
head with an empty body. -/
theorem c4_counterexample :
    cutList crlf2 "GET / HTTP/1.1\r\nhost: a".data = none
    ∧ parseRequest "GET / HTTP/1.1\r\nhost: a".data = .fault oorMsg := by decide

/-- C5 counterexample: in the start line `"GET / foo HTTP/1.1"` the third
space-separated token is `"foo"`, not `"HTTP/1.1"`, yet parsing succeeds —
refuting both directions of the claimed equivalence (the code tests the
string suffix, not the third token). -/
theorem c5_counterexample :
    (goSplitChar ' ' "GET / foo HTTP/1.1".data).get? 2 = some "foo".data
    ∧ "foo".data ≠ http11
    ∧ parseFirstLine "GET / foo HTTP/1.1".data = .ok ("GET".data, "/".data) := by decide

/-- C7 counterexample: for the buffer
`"POST /files/x HTTP/1.1\r\nhost: a\r\n\r\nAB<NUL>CD"` the bytes following
the first blank-line separator are `"AB<NUL>CD"`, but the connection
handler truncates the buffer at the first zero byte before parsing, so the
parsed Request body is `"AB"` — truncated at the embedded null. -/
theorem c7_counterexample :
    (cutList crlf2 "POST /files/x HTTP/1.1\r\nhost: a\r\n\r\nAB\u0000CD".data).map Prod.snd
      = some "AB\u0000CD".data
    ∧ parseRequest (truncAtNul "POST /files/x HTTP/1.1\r\nhost: a\r\n\r\nAB\u0000CD".data)
      = .ok ⟨"POST".data, "/files/x".data, [("host".data, "a".data)], "AB".data⟩
    ∧ ("AB".data : Bytes) ≠ "AB\u0000CD".data := by decide

/-- C9 counterexample: joining the configured root `"/data"` with the
client-supplied suffix `"../secret"` yields `"/secret"`, which lies outside
the root — `path.Join` cleans lexically and enforces no containment. -/
theorem c9_counterexample :
    goPathJoin "/data".data "../secret".data = "/secret".data
    ∧ withinRoot "/data".data (goPathJoin "/data".data "../secret".data) = false := by decide

theorem consHead_ne_nil (c : Char) (l : List Bytes) : consHead c l ≠ [] := by
  cases l <;> simp [consHead]

theorem goSplitChar_ne_nil (sep : Char) (l : Bytes) : goSplitChar sep l ≠ [] := by
  induction l with
  | nil => simp [goSplitChar]
  | cons c rest ih =>
    simp only [goSplitChar]
    split
    · simp
    · exact consHead_ne_nil c _

theorem consHead_append (c : Char) (l m : List Bytes) (h : l ≠ []) :
    consHead c (l ++ m) = consHead c l ++ m := by
  cases l with
  | nil => exact absurd rfl h
  | cons g gs => simp [consHead]

theorem goSplitChar_append (sep : Char) (a b : Bytes) :
    goSplitChar sep (a ++ sep :: b) = goSplitChar sep a ++ goSplitChar sep b := by
  induction a with
  | nil => simp [goSplitChar]
  | cons c rest ih =>
    by_cases hc : c = sep
    · subst hc
      simp [goSplitChar, ih]
    · simp [goSplitChar, hc, ih, consHead_append _ _ _ (goSplitChar_ne_nil sep rest)]

theorem goSplitChar_no_sep (sep : Char) (l : Bytes) (h : sep ∉ l) :
    goSplitChar sep l = [l] := by
  induction l with
  | nil => rfl
  | cons c rest ih =>
    have hc : ¬ c = sep := fun hc => h (by rw [hc]; exact List.mem_cons_self sep rest)
    have hr : sep ∉ rest := fun hr => h (List.mem_cons_of_mem c hr)
    simp [goSplitChar, hc, ih hr, consHead]

theorem goCutSuffix_append (sfx pre : Bytes) :
    goCutSuffix sfx (pre ++ sfx) = some pre := by
  unfold goCutSuffix
  rw [if_pos (by simp)]
  rw [List.length_append, Nat.add_sub_cancel, List.take_left]

theorem findSome?_filterMap_bind {α β γ : Type} (g : α → Option β) (f : β → Option γ) :
    ∀ l : List α, (l.filterMap g).findSome? f = l.findSome? fun x => (g x).bind f := by
  intro l
  induction l with
  | nil => rfl
  | cons x rest ih =>
    cases hx : g x with
    | none => simp [List.filterMap_cons, hx, List.findSome?_cons, ih]
    | some b =>
      rw [List.filterMap_cons_some hx, List.findSome?_cons, List.findSome?_cons, hx]
      cases hfb : f b <;> simp [hfb, ih]

/-- Reading of "last write wins" taken from the spec's words: the value
bound to key `k` is the value of the last header line in the block whose
normalised name equals `k`. -/
def findLastValue (ls : List Bytes) (k : Bytes) : Option Bytes :=
  ls.reverse.findSome? fun line =>
    (lineKV line).bind fun p => if p.1 = k then some p.2 else none

/-- C8: for every header block and every key, the lookup in the parsed
header map returns the value of the LAST line of the block binding that
(lowercased, trimmed) name — later parses overwrite earlier mapping
entries, so with two or more equally-named lines the last occurrence
wins. -/
theorem c8_last_header_wins (raw k : Bytes) :
    lookupLast (parseHeaders raw) k = findLastValue (splitCRLF raw) k := by
  unfold lookupLast parseHeaders findLastValue
  rw [← List.filterMap_reverse]
  exact findSome?_filterMap_bind lineKV _ _

/-- C5 amended: `parseFirstLine` fails — necessarily with the
only-HTTP/1.1-supported error — exactly when the start line does not END
with the literal `"HTTP/1.1"`.  The code tests the string suffix, not the
third space-separated token, so lines whose third token differs can parse
successfully and lines whose third token is `"HTTP/1.1"` can fail. -/
theorem c5_err_iff_no_suffix (line : Bytes) :
    (∃ e, parseFirstLine line = .err e) ↔ http11.isSuffixOf line = false := by
  unfold parseFirstLine goCutSuffix
  by_cases hs : http11.isSuffixOf line
  · rw [if_pos hs]
    simp only [hs]
    constructor
    · rintro ⟨e, he⟩
      rcases hl : goSplitChar ' ' (line.take (line.length - http11.length)) with
        _ | ⟨b0, _ | ⟨b1, rest⟩⟩ <;> simp [hl] at he
    · intro h
      exact absurd h (by simp)
  · rw [if_neg hs]
    simp only [Bool.not_eq_true] at hs
    simp [hs]

/-- C3 amended: token count is not validated by `parseFirstLine`.  A start
line is rejected only when it lacks the `"HTTP/1.1"` suffix; any line of
the shape `m ++ " " ++ t ++ " " ++ extra ++ " HTTP/1.1"` — four or more
space-separated tokens when `extra` is itself a token — parses
successfully, returning the first two fields as method and target, and a
suffixed line with fewer than two fields faults instead of failing. -/
theorem c3_extra_tokens_parse (m t extra : Bytes) (hm : ' ' ∉ m) (ht : ' ' ∉ t) :
    parseFirstLine (m ++ ' ' :: (t ++ ' ' :: (extra ++ ' ' :: http11))) = .ok (m, t) := by
  unfold parseFirstLine
  have h1 : m ++ ' ' :: (t ++ ' ' :: (extra ++ ' ' :: http11))
      = (m ++ ' ' :: (t ++ ' ' :: (extra ++ [' ']))) ++ http11 := by
    simp
  have h2 : goSplitChar ' ' (m ++ ' ' :: (t ++ ' ' :: (extra ++ [' '])))
      = m :: t :: goSplitChar ' ' (extra ++ [' ']) := by
    rw [goSplitChar_append, goSplitChar_no_sep _ m hm, goSplitChar_append,
        goSplitChar_no_sep _ t ht]
    rfl
  rw [h1, goCutSuffix_append]
  simp [h2]

/-- Witness for `c3_extra_tokens_parse` at the concrete start line
`"GET /a x HTTP/1.1"`. -/
theorem c3_extra_tokens_parse_witness :
    parseFirstLine ("GET".data ++ ' ' :: ("/a".data ++ ' ' :: ("x".data ++ ' ' :: http11)))
      = .ok ("GET".data, "/a".data) :=
  c3_extra_tokens_parse "GET".data "/a".data "x".data (by decide) (by decide)

theorem parseRequest_ok_body (buf : Bytes) (req : Req) (h : parseRequest buf = .ok req) :
    ∃ hd, cutList crlf2 buf = some (hd, req.body) := by
  cases hcb : cutList crlf2 buf with
  | none =>
    exfalso
    simp only [parseRequest, hcb] at h
    split at h
    · exact GoResult.noConfusion h
    · exact GoResult.noConfusion h
    · split at h
      · exact GoResult.noConfusion h
      · exact GoResult.noConfusion h
  | some bp =>
    simp only [parseRequest, hcb] at h
    split at h
    · exact GoResult.noConfusion h
    · exact GoResult.noConfusion h
    · split at h
      · exact GoResult.noConfusion h
      · injection h with h2
        refine ⟨bp.1, ?_⟩
        rw [← h2]

/-- C4 amended: an input buffer containing no CRLF CRLF blank-line
separator is never parsed into a request — the degenerate case is NOT
handled by treating the whole buffer as the head with an empty body;
instead `parseRequest` returns the start-line failure when the start line
lacks the `HTTP/1.1` suffix and otherwise faults on an out-of-range
index (`split2[1]` or `split[1]`). -/
theorem c4_no_separator_never_ok (buf : Bytes) (h : cutList crlf2 buf = none) (req : Req) :
    parseRequest buf ≠ .ok req := by
  intro hok
  obtain ⟨hd, hc⟩ := parseRequest_ok_body buf req hok
  rw [h] at hc
  exact Option.noConfusion hc

/-- Witness for `c4_no_separator_never_ok` at the concrete separator-free
buffer `"GET / HTTP/1.1\r\nhost: a"`. -/
theorem c4_no_separator_never_ok_witness :
    parseRequest "GET / HTTP/1.1\r\nhost: a".data
      ≠ .ok ⟨"GET".data, "/".data, [("host".data, "a".data)], []⟩ :=
  c4_no_separator_never_ok "GET / HTTP/1.1\r\nhost: a".data (by decide)
    ⟨"GET".data, "/".data, [("host".data, "a".data)], []⟩

theorem cutList_eq_append (sep : Bytes) :
    ∀ (l h b : Bytes), cutList sep l = some (h, b) → l = h ++ sep ++ b := by
  intro l
  induction l with
  | nil => intro h b hc; exact Option.noConfusion hc
  | cons c rest ih =>
    intro h b hc
    unfold cutList at hc
    by_cases hp : sep.isPrefixOf (c :: rest) = true
    · rw [if_pos hp] at hc
      injection hc with hpair
      rw [Prod.mk.injEq] at hpair
      obtain ⟨hh, hb⟩ := hpair
      have hp2 : ∃ tl, sep ++ tl = c :: rest := by simpa [List.IsPrefix] using hp
      obtain ⟨tl, htl⟩ := hp2
      subst hh
      rw [← hb, ← htl, List.drop_left]
      simp
    · rw [if_neg hp] at hc
      cases hcr : cutList sep rest with
      | none => rw [hcr] at hc; exact Option.noConfusion hc
      | some p =>
        rw [hcr] at hc
        injection hc with hpair
        rw [Prod.mk.injEq] at hpair
        obtain ⟨hh, hb⟩ := hpair
        have hrest := ih p.1 p.2 (by rw [hcr])
        rw [← hh, ← hb, hrest]
        simp

theorem mem_of_cutList_body {sep l h b : Bytes} (hc : cutList sep l = some (h, b)) :
    ∀ x ∈ b, x ∈ l := by
  intro x hx
  rw [cutList_eq_append sep l h b hc]
  simp [hx]

/-- C7 amended: when the connection handler parses its buffer successfully,
the Request body is the byte sequence following the first blank-line
separator of the buffer AFTER the handler's truncation at the first zero
byte — consequently the body never contains a null byte, and a body with
an embedded null in the original buffer is truncated there rather than
taken verbatim. -/
theorem c7_body_from_truncated (buf : Bytes) (req : Req)
    (h : parseRequest (truncAtNul buf) = .ok req) :
    (cutList crlf2 (truncAtNul buf)).map Prod.snd = some req.body
    ∧ '\u0000' ∉ req.body := by
  obtain ⟨hd, hc⟩ := parseRequest_ok_body _ req h
  refine ⟨by rw [hc]; rfl, ?_⟩
  intro hmem
  have hx : '\u0000' ∈ truncAtNul buf := mem_of_cutList_body hc _ hmem
  have hne := List.mem_takeWhile_imp hx
  simp at hne

/-- Witness for `c7_body_from_truncated` at a concrete null-free buffer. -/
theorem c7_body_from_truncated_witness :
    (cutList crlf2 (truncAtNul "GET / HTTP/1.1\r\nh: a\r\n\r\nBODY".data)).map Prod.snd
      = some "BODY".data
    ∧ '\u0000' ∉ ("BODY".data : Bytes) :=
  c7_body_from_truncated "GET / HTTP/1.1\r\nh: a\r\n\r\nBODY".data
    ⟨"GET".data, "/".data, [("h".data, "a".data)], "BODY".data⟩ (by decide)

theorem goSplitChar_joinSlash :
    ∀ gs : List Bytes, gs ≠ [] → (∀ g ∈ gs, '/' ∉ g) →
      goSplitChar '/' (joinSlash gs) = gs := by
  intro gs
  induction gs with
  | nil => intro h; exact absurd rfl h
  | cons g rest ih =>
    intro _ hno
    cases rest with
    | nil => exact goSplitChar_no_sep '/' g (hno g (List.mem_cons_self g []))
    | cons g2 rest2 =>
      show goSplitChar '/' (g ++ '/' :: joinSlash (g2 :: rest2)) = _
      rw [goSplitChar_append, goSplitChar_no_sep '/' g (hno g (List.mem_cons_self g _)),
          ih (by simp) fun x hx => hno x (List.mem_cons_of_mem g hx)]
      rfl

theorem cleanComps_normal :
    ∀ (l : List Bytes) (acc : List Bytes),
      (∀ x ∈ l, x ≠ [] ∧ x ≠ ".".data ∧ x ≠ "..".data) →
      cleanComps acc l = acc.reverse ++ l := by
  intro l
  induction l with
  | nil => intro acc _; simp [cleanComps]
  | cons x rest ih =>
    intro acc hx
    obtain ⟨h1, h2, h3⟩ := hx x (List.mem_cons_self x rest)
    unfold cleanComps
    rw [if_neg (by simp [h1, h2]), if_neg h3,
        ih (x :: acc) fun y hy => hx y (List.mem_cons_of_mem x hy)]
    simp

theorem joinSlash_append :
    ∀ (ds rs : List Bytes), ds ≠ [] → rs ≠ [] →
      joinSlash (ds ++ rs) = joinSlash ds ++ '/' :: joinSlash rs := by
  intro ds
  induction ds with
  | nil => intro rs h; exact absurd rfl h
  | cons d ds2 ih =>
    intro rs _ hr
    cases ds2 with
    | nil =>
      cases rs with
      | nil => exact absurd rfl hr
      | cons r rs2 => rfl
    | cons d2 ds3 =>
      show d ++ '/' :: joinSlash ((d2 :: ds3) ++ rs)
          = (d ++ '/' :: joinSlash (d2 :: ds3)) ++ '/' :: joinSlash rs
      rw [ih rs (by simp) hr]
      simp

/-- C9 amended: `path.Join` only cleans lexically and enforces no
containment — a suffix with `..` components can escape the configured root
(see the counterexample).  Containment does hold in the absence of such
components: for every non-empty suffix all of whose slash-separated
components are normal names (non-empty, not `.`, not `..`, slash-free),
joining any clean absolute root with the suffix stays within that root. -/
theorem c9_normal_components_stay_within (ds rs : List Bytes)
    (hd : ds ≠ []) (hr : rs ≠ [])
    (hds : ∀ c ∈ ds, c ≠ [] ∧ c ≠ ".".data ∧ c ≠ "..".data ∧ '/' ∉ c)
    (hrs : ∀ c ∈ rs, c ≠ [] ∧ c ≠ ".".data ∧ c ≠ "..".data ∧ '/' ∉ c) :
    withinRoot ('/' :: joinSlash ds)
      (goPathJoin ('/' :: joinSlash ds) (joinSlash rs)) = true := by
  unfold goPathJoin goCleanRooted withinRoot
  have hsplit : goSplitChar '/' (('/' :: joinSlash ds) ++ '/' :: joinSlash rs)
      = [] :: (ds ++ rs) := by
    show goSplitChar '/' ('/' :: (joinSlash ds ++ '/' :: joinSlash rs)) = _
    rw [show goSplitChar '/' ('/' :: (joinSlash ds ++ '/' :: joinSlash rs))
        = [] :: goSplitChar '/' (joinSlash ds ++ '/' :: joinSlash rs) from by
          simp [goSplitChar]]
    rw [goSplitChar_append,
        goSplitChar_joinSlash ds hd (fun g hg => (hds g hg).2.2.2),
        goSplitChar_joinSlash rs hr (fun g hg => (hrs g hg).2.2.2)]
  rw [hsplit]
  rw [show cleanComps [] ([] :: (ds ++ rs)) = cleanComps [] (ds ++ rs) from by
        simp [cleanComps]]
  rw [cleanComps_normal (ds ++ rs) [] fun x hx => by
        rcases List.mem_append.mp hx with h | h
        · exact ⟨(hds x h).1, (hds x h).2.1, (hds x h).2.2.1⟩
        · exact ⟨(hrs x h).1, (hrs x h).2.1, (hrs x h).2.2.1⟩]
  simp only [List.reverse_nil, List.nil_append]
  rw [joinSlash_append ds rs hd hr]
  have hpre : (('/' :: joinSlash ds) ++ ['/']).isPrefixOf
      ('/' :: (joinSlash ds ++ '/' :: joinSlash rs)) = true := by
    have he : '/' :: (joinSlash ds ++ '/' :: joinSlash rs)
        = (('/' :: joinSlash ds) ++ ['/']) ++ joinSlash rs := by simp
    rw [he]
    simp
  simp [hpre]

/-- Witness for `c9_normal_components_stay_within` at root `"/data"` and
suffix `"w/x"`. -/
theorem c9_normal_components_stay_within_witness :
    withinRoot ('/' :: joinSlash ["data".data])
      (goPathJoin ('/' :: joinSlash ["data".data]) (joinSlash ["w".data, "x".data]))
      = true :=
  c9_normal_components_stay_within ["data".data] ["w".data, "x".data]
    (by decide) (by decide) (by decide) (by decide)
